import Mathlib

/-!
Verification of the Jira issue-cloning pipeline (`src/index.js`).

The file shallowly embeds the pure logic of the script — the ADF document
sanitizer `sanitizeADF`, the summary transformer `transformSummaryForTarget`,
the per-target field construction from `run`, the attachment replication loop
`cloneAttachments`, and the per-target orchestration loop — and proves or
refutes the specified properties about them.
-/

namespace JiraClone

/-- An Atlassian-Document-Format node: a `type` tag, an optional child array
(whose entries may themselves be `null`, as in raw JSON), and an opaque
`attrs` string standing for all remaining payload fields carried verbatim. -/
inductive ADFNode where
  | mk (type : String) (content : Option (List (Option ADFNode))) (attrs : String)
deriving Repr

def ADFNode.type : ADFNode → String
  | .mk t _ _ => t

def ADFNode.content : ADFNode → Option (List (Option ADFNode))
  | .mk _ c _ => c

def ADFNode.attrs : ADFNode → String
  | .mk _ _ a => a

/-- The deny-set of node types removed by `sanitizeADF` (`src/index.js:93`). -/
def unsupported : List String :=
  ["mediaSingle", "media", "mediaInline", "inlineCard", "blockCard", "mention"]

mutual

/-- The body of the `.map` callback of `cleanContent` (`src/index.js:97-111`):
`null` entries map to `null`; deny-set node types map to `null`; otherwise the
children (when present — in JS an empty array is truthy and is still cleaned)
are cleaned first, then a `mediaGroup` whose cleaned child list is missing or
empty maps to `null`; every other node survives with its cleaned children. -/
def cleanNode : Option ADFNode → Option ADFNode
  | none => none
  | some (ADFNode.mk t none a) =>
      if unsupported.contains t then none
      else if t == "mediaGroup" then none
      else some (ADFNode.mk t none a)
  | some (ADFNode.mk t (some l) a) =>
      if unsupported.contains t then none
      else
        let l' := cleanContent l
        if t == "mediaGroup" && l'.isEmpty then none
        else some (ADFNode.mk t (some l') a)

/-- The function `cleanContent` (`src/index.js:95-113`): map `cleanNode` over the array and
drop the `null` results (`.filter(Boolean)`). -/
def cleanContent : List (Option ADFNode) → List (Option ADFNode)
  | [] => []
  | n :: rest =>
      match cleanNode n with
      | none => cleanContent rest
      | some n' => some n' :: cleanContent rest

end

mutual

/-- Holds (`true`) iff the node's type is outside the deny-set and the same holds
recursively for every node of its child array. -/
def nodeNoUnsupported : ADFNode → Bool
  | ADFNode.mk t none _ => !unsupported.contains t
  | ADFNode.mk t (some l) _ => !unsupported.contains t && contentNoUnsupported l

/-- Holds (`true`) iff no node anywhere in the array (at any depth) has a deny-set
type. -/
def contentNoUnsupported : List (Option ADFNode) → Bool
  | [] => true
  | none :: rest => contentNoUnsupported rest
  | some n :: rest => nodeNoUnsupported n && contentNoUnsupported rest

end

/-- The root object handled by `sanitizeADF`: a `type` tag, a `version`, the
optional top-level child array, and an opaque `attrs` string standing for any
remaining fields, which the `{...adf}` spread carries over verbatim. -/
structure ADF where
  type : String
  version : Nat
  content : Option (List (Option ADFNode))
  attrs : String
deriving Repr

/-- The function `sanitizeADF` (`src/index.js:90-119`): an absent input, or one whose type
is not `"doc"`, yields the fixed empty document; otherwise the result keeps
every root field and replaces `content` with the cleaned child array
(`adf.content || []` defaulting a missing array to empty). -/
def sanitizeADF : Option ADF → ADF
  | none => { type := "doc", version := 1, content := some [], attrs := "" }
  | some adf =>
      if adf.type ≠ "doc" then { type := "doc", version := 1, content := some [], attrs := "" }
      else { adf with content := some (cleanContent (adf.content.getD [])) }

/-! ### Summary transformer -/

/-- Drop leading and trailing whitespace, as JS `String.prototype.trim`
(whitespace modelled by `Char.isWhitespace`). -/
def trimChars (l : List Char) : List Char :=
  ((l.dropWhile Char.isWhitespace).reverse.dropWhile Char.isWhitespace).reverse

/-- JS `.trim()` on a string. -/
def jsTrim (s : String) : String :=
  (trimChars s.data).asString

/-- The tail of the `[^\]]*\]` part: after skipping the bracket-free run, a
`]` must actually be there; the remainder after it is the match's end. -/
def closeBracketSplit : List Char → Option (List Char)
  | c :: rest => if c = ']' then some rest else none
  | [] => none

/-- After the `\s*` was consumed, the pattern requires `[`, then bracket-free
text up to a closing `]`. -/
def matchBracketAfterWs : List Char → Option (List Char)
  | c :: r =>
      if c = '[' then closeBracketSplit (r.dropWhile (fun c => c ≠ ']')) else none
  | [] => none

/-- One match of the regex `\s*\[[^\]]*\]` at the start of the list: skip a
(greedy, possibly empty) whitespace run, require `[`, require a closing `]`
with no `]` in between, and return the remainder after the `]`; `none` when
the pattern cannot match at this position (backtracking the `\s*` cannot help,
because no whitespace character is `[`). -/
def matchBracket (l : List Char) : Option (List Char) :=
  matchBracketAfterWs (l.dropWhile Char.isWhitespace)

theorem closeBracketSplit_length {l r : List Char} (h : closeBracketSplit l = some r) :
    r.length < l.length := by
  unfold closeBracketSplit at h
  split at h
  · split at h
    · cases h
      simp
    · exact absurd h (by simp)
  · exact absurd h (by simp)

theorem matchBracket_length {l r : List Char} (h : matchBracket l = some r) :
    r.length < l.length := by
  unfold matchBracket matchBracketAfterWs at h
  have hws : (l.dropWhile Char.isWhitespace).length ≤ l.length :=
    (List.dropWhile_sublist _).length_le
  split at h
  · next c rs heq =>
      rw [heq] at hws
      split at h
      · have h1 := closeBracketSplit_length h
        have h2 : (rs.dropWhile (fun c => c ≠ ']')).length ≤ rs.length :=
          (List.dropWhile_sublist _).length_le
        simp only [List.length_cons] at hws
        omega
      · exact absurd h (by simp)
  · exact absurd h (by simp)

/-- The global replace `originalSummary.replace(/\s*\[[^\]]*\]/g, '')`
(`src/index.js:126`): scan left to right; wherever the pattern matches, drop
the matched characters and resume after them; otherwise keep one character
and move on. -/
def stripAllBracketsAux : List Char → List Char
  | [] => []
  | c :: rest =>
      match _h : matchBracket (c :: rest) with
      | some rest' => stripAllBracketsAux rest'
      | none => c :: stripAllBracketsAux rest
termination_by l => l.length
decreasing_by
  · exact matchBracket_length _h
  · simp

/-- String-level wrapper for the global bracket-group removal. -/
def stripAllBrackets (s : String) : String :=
  (stripAllBracketsAux s.data).asString

/-- The anchored replace `originalSummary.replace(/^\s*\[[^\]]*\]\s*/, '')`
(`src/index.js:130`): when the leading pattern matches, the remainder also
loses the whitespace run following the `]`; otherwise the list is unchanged. -/
def stripLeadingBracketChars (l : List Char) : List Char :=
  match matchBracket l with
  | some rest => rest.dropWhile Char.isWhitespace
  | none => l

/-- The `client` attribute of a target as it may appear in `targets.js`:
a plain string, an array of strings, or absent. -/
inductive ClientVal where
  | str (s : String)
  | arr (l : List String)
  | absent
deriving Repr, DecidableEq

/-- One entry of the `TARGETS` configuration, with exactly the attributes the
cloning code reads (`project`, `stripBrackets`, `client`, `labels`,
`components`, `affectsVersions`), plus `linkType`.

`linkType` is modelled from the spec: the spec's TargetSpec declares an
optional cross-link relationship name, and `components/targets.js` itself is
not part of the sources; the cloning code never reads such an attribute. -/
structure Target where
  project : String
  stripBrackets : Bool
  client : ClientVal
  labels : Option (List String)
  components : Option (List String)
  affectsVersions : Option (List String)
  linkType : Option String
deriving Repr

/-- The lookup `Array.isArray(target.client) ? target.client[0] : target.client`
followed by the JS truthiness test `if (clientVal)`: the result is `some`
exactly for a non-empty string value (an absent client, an empty array, or an
empty-string value are all falsy). -/
def clientValOf : ClientVal → Option String
  | ClientVal.str s => if s = "" then none else some s
  | ClientVal.arr [] => none
  | ClientVal.arr (s :: _) => if s = "" then none else some s
  | ClientVal.absent => none

/-- The function `transformSummaryForTarget` (`src/index.js:121-141`). An absent target is
`none`; an absent or empty title is the empty string (both are falsy in JS and
returned unchanged). -/
def transformSummaryForTarget (target : Option Target) (originalSummary : String) : String :=
  match target with
  | none => originalSummary
  | some t =>
      if originalSummary = "" then originalSummary
      else if t.stripBrackets then jsTrim (stripAllBrackets originalSummary)
      else
        let summaryWithoutFirstGroup := (stripLeadingBracketChars originalSummary.data).asString
        match clientValOf t.client with
        | some clientVal => jsTrim ("[" ++ clientVal ++ "] " ++ summaryWithoutFirstGroup)
        | none => summaryWithoutFirstGroup

/-! ### Field construction (`run`, `src/index.js:149-199`) -/

/-- A `{ name: v }` reference, used for `fixVersions`, `versions` and
`components` entries. -/
structure VersionRef where
  name : String
deriving Repr, DecidableEq

/-- One attachment descriptor of the source issue: its filename and the
`content` download URL. -/
structure Attachment where
  filename : String
  content : String
deriving Repr, DecidableEq

/-- The parts of the fetched source issue the script reads:
`fields.summary`, `fields.description`, `fields.issuetype.id`,
`fields.assignee.accountId` (when an assignee exists) and
`fields.attachment`. -/
structure SrcIssue where
  key : String
  summary : String
  description : Option ADF
  issuetypeId : String
  assigneeId : Option String
  attachment : Option (List Attachment)
deriving Repr

/-- The `fields` object posted on issue creation (`src/index.js:167-179`).
An `Option` field with value `none` stands for a key that is absent from the
serialized JSON body: `versions: ... : undefined` is dropped by
serialization, and the conditional spreads omit `labels`/`components`
entirely. -/
structure Fields where
  summary : String
  description : ADF
  issuetypeId : String
  assigneeId : Option String
  project : String
  fixVersions : List VersionRef
  versions : Option (List VersionRef)
  labels : Option (List String)
  components : Option (List VersionRef)
deriving Repr

/-- Building the per-target `fields` object. Evaluating the object literal
reads `target.affectsVersions.map(...)`, which throws a `TypeError` when
`affectsVersions` is absent — modelled as `Except.error`; this evaluation
happens before (and outside) the per-target `try` block. The `description`
is the sanitized source description, included in the creation fields via
`...baseFields`. -/
def buildFields (target : Target) (src : SrcIssue) : Except String Fields :=
  match target.affectsVersions with
  | none => Except.error "TypeError: cannot read map of undefined affectsVersions"
  | some vs =>
      Except.ok
        { summary := transformSummaryForTarget (some target) src.summary
          description := sanitizeADF src.description
          issuetypeId := src.issuetypeId
          assigneeId := src.assigneeId
          project := target.project
          fixVersions := vs.map VersionRef.mk
          versions :=
            if src.issuetypeId ≠ "10011" then some (vs.map VersionRef.mk) else none
          labels :=
            match target.labels with
            | some ls => if ls.length > 0 then some ls else none
            | none => none
          components :=
            match target.components with
            | some cs => if cs.length > 0 then some (cs.map VersionRef.mk) else none
            | none => none }

/-! ### Attachment replication (`cloneAttachments`, `src/index.js:40-87`) -/

/-- The extensions zipped before upload (`src/index.js:54`). -/
def unsupportedExtensions : List String :=
  [".msg", ".eml", ".exe", ".dll", ".bat", ".cmd", ".sh", ".ini", ".sys", ".db", ".log"]

/-- The test `unsupported.some(ext => att.filename.toLowerCase().endsWith(ext))`. -/
def isUnsupportedExt (filename : String) : Bool :=
  unsupportedExtensions.any (fun ext => ext.data.isSuffixOf (filename.data.map Char.toLower))

/-- An upload body: either the raw downloaded bytes, or a single-entry zip
archive holding the original bytes under the original filename. -/
inductive Buf where
  | bytes (data : String)
  | zip (entryName : String) (data : String)
deriving Repr, DecidableEq

/-- One observable remote call made during a run. `updateIssue` is the issue
update endpoint of the tracker; the script never calls it, and the
constructor exists so that its absence from every trace is expressible. -/
inductive ApiCall where
  | createIssue (fields : Fields)
  | updateIssue (issueKey : String) (description : ADF)
  | download (url : String)
  | upload (issueKey : String) (filename : String) (buf : Buf)
  | createLink (typeName : String) (inwardKey : String) (outwardKey : String)

/-- The remote side's behaviour: `createResult` is `some newKey` when issue
creation succeeds and `none` when `jiraPost` throws; `downloadResult` is
`some bytes` when the attachment fetch succeeds and `none` when it rejects.
Upload and link outcomes are not modelled: the script catches both
failures and only logs them, so no later behaviour depends on them. -/
structure Env where
  createResult : Fields → Option String
  downloadResult : String → Option String

/-- The loop body of `cloneAttachments` over the attachment list. Each
attachment is downloaded (`await fetch(att.content)` — not inside any try
block, so a rejection propagates and ends the loop: modelled by the `true`
flag with no further calls), optionally zipped when its lower-cased filename
has an unsupported extension, and uploaded (the upload is inside
`try`/`catch`, so its outcome never affects the loop). -/
def cloneAttachmentsGo (env : Env) (newIssueKey : String) :
    List Attachment → List ApiCall × Bool
  | [] => ([], false)
  | att :: rest =>
      match env.downloadResult att.content with
      | none => ([ApiCall.download att.content], true)
      | some data =>
          let uploadBuffer :=
            if isUnsupportedExt att.filename then Buf.zip att.filename data
            else Buf.bytes data
          let uploadName :=
            if isUnsupportedExt att.filename then att.filename ++ ".zip"
            else att.filename
          let r := cloneAttachmentsGo env newIssueKey rest
          (ApiCall.download att.content :: ApiCall.upload newIssueKey uploadName uploadBuffer :: r.1,
           r.2)

/-- The function `cloneAttachments(srcIssue, newIssueKey)`: iterate over
`srcIssue.fields.attachment || []`. -/
def cloneAttachments (env : Env) (srcIssue : SrcIssue) (newIssueKey : String) :
    List ApiCall × Bool :=
  cloneAttachmentsGo env newIssueKey (srcIssue.attachment.getD [])

/-! ### Per-target orchestration (`run`, `src/index.js:149-199`) -/

/-- The guarded body of one loop iteration, after the `fields` object was
built: create the issue (a failure is caught by the outer `catch`, ending the
iteration); on success replicate attachments, and — only if that did not
throw — post the issue link, which always uses the hard-coded
`type: { name: "Blocks" }` with the source issue inward and the new issue
outward (`src/index.js:186-190`). The link call sits in its own inner
`try`/`catch`, so its outcome affects nothing. -/
def runTarget (env : Env) (sourceIssueKey : String) (fields : Fields)
    (atts : List Attachment) : List ApiCall :=
  match env.createResult fields with
  | none => [ApiCall.createIssue fields]
  | some newKey =>
      let r := cloneAttachmentsGo env newKey atts
      ApiCall.createIssue fields ::
        (r.1 ++ if r.2 then [] else [ApiCall.createLink "Blocks" sourceIssueKey newKey])

/-- The `for (const target of TARGETS)` loop. Per target it returns that
target's call trace; the second component is `true` when the run aborted
because building a target's `fields` object threw outside the per-target
`try` block (the exception is only caught by the top-level `run().catch`,
so no later target is attempted). -/
def runTargets (env : Env) (src : SrcIssue) :
    List Target → List (List ApiCall) × Bool
  | [] => ([], false)
  | target :: rest =>
      match buildFields target src with
      | Except.error _ => ([], true)
      | Except.ok fields =>
          let r := runTargets env src rest
          (runTarget env src.key fields (src.attachment.getD []) :: r.1, r.2)

/-! ### Sanitizer lemmas -/

theorem stable_none :
    ∀ n', cleanNode none = some n' → cleanNode (some n') = some n' := by
  intro n' h
  simp only [cleanNode] at h
  exact absurd h (by simp)

theorem stable_unsup_leaf :
    ∀ (t a : String), unsupported.contains t = true →
      ∀ n', cleanNode (some (ADFNode.mk t none a)) = some n' →
        cleanNode (some n') = some n' := by
  intro t a ht n' h
  simp only [cleanNode] at h
  rw [if_pos ht] at h
  exact absurd h (by simp)

theorem stable_mg_leaf :
    ∀ (t a : String), ¬unsupported.contains t = true → (t == "mediaGroup") = true →
      ∀ n', cleanNode (some (ADFNode.mk t none a)) = some n' →
        cleanNode (some n') = some n' := by
  intro t a ht hmg n' h
  simp only [cleanNode] at h
  rw [if_neg ht, if_pos hmg] at h
  exact absurd h (by simp)

theorem stable_keep_leaf :
    ∀ (t a : String), ¬unsupported.contains t = true → ¬(t == "mediaGroup") = true →
      ∀ n', cleanNode (some (ADFNode.mk t none a)) = some n' →
        cleanNode (some n') = some n' := by
  intro t a ht hmg n' h
  simp only [cleanNode] at h
  rw [if_neg ht, if_neg hmg] at h
  injection h with h2
  subst h2
  simp only [cleanNode]
  rw [if_neg ht, if_neg hmg]

theorem stable_unsup_parent :
    ∀ (t : String) (l : List (Option ADFNode)) (a : String),
      unsupported.contains t = true →
      ∀ n', cleanNode (some (ADFNode.mk t (some l) a)) = some n' →
        cleanNode (some n') = some n' := by
  intro t l a ht n' h
  simp only [cleanNode] at h
  rw [if_pos ht] at h
  exact absurd h (by simp)

theorem stable_mg_empty :
    ∀ (t : String) (l : List (Option ADFNode)) (a : String),
      ¬unsupported.contains t = true →
      (t == "mediaGroup" && (cleanContent l).isEmpty) = true →
      cleanContent (cleanContent l) = cleanContent l →
      ∀ n', cleanNode (some (ADFNode.mk t (some l) a)) = some n' →
        cleanNode (some n') = some n' := by
  intro t l a ht hcond _ n' h
  simp only [cleanNode] at h
  rw [if_neg ht, if_pos hcond] at h
  exact absurd h (by simp)

theorem stable_keep_parent :
    ∀ (t : String) (l : List (Option ADFNode)) (a : String),
      ¬unsupported.contains t = true →
      ¬(t == "mediaGroup" && (cleanContent l).isEmpty) = true →
      cleanContent (cleanContent l) = cleanContent l →
      ∀ n', cleanNode (some (ADFNode.mk t (some l) a)) = some n' →
        cleanNode (some n') = some n' := by
  intro t l a ht hcond ih n' h
  simp only [cleanNode] at h
  rw [if_neg ht, if_neg hcond] at h
  injection h with h2
  subst h2
  simp only [cleanNode, ih]
  rw [if_neg ht, if_neg hcond]

theorem stable_nil :
    cleanContent (cleanContent ([] : List (Option ADFNode))) = cleanContent [] := by
  simp only [cleanContent]

theorem stable_cons_drop :
    ∀ (n : Option ADFNode) (rest : List (Option ADFNode)),
      cleanNode n = none →
      (∀ n', cleanNode n = some n' → cleanNode (some n') = some n') →
      cleanContent (cleanContent rest) = cleanContent rest →
      cleanContent (cleanContent (n :: rest)) = cleanContent (n :: rest) := by
  intro n rest h _ ih2
  simp only [cleanContent, h]
  exact ih2

theorem stable_cons_keep :
    ∀ (n : Option ADFNode) (rest : List (Option ADFNode)) (n' : ADFNode),
      cleanNode n = some n' →
      (∀ m, cleanNode n = some m → cleanNode (some m) = some m) →
      cleanContent (cleanContent rest) = cleanContent rest →
      cleanContent (cleanContent (n :: rest)) = cleanContent (n :: rest) := by
  intro n rest n' h ih1 ih2
  have h2 := ih1 n' h
  simp only [cleanContent, h, h2, ih2]

theorem cleanNode_stable :
    ∀ n : Option ADFNode, ∀ n', cleanNode n = some n' → cleanNode (some n') = some n' :=
  fun n =>
    cleanNode.induct
      (fun n => ∀ n', cleanNode n = some n' → cleanNode (some n') = some n')
      (fun l => cleanContent (cleanContent l) = cleanContent l)
      stable_none stable_unsup_leaf stable_mg_leaf stable_keep_leaf
      stable_unsup_parent stable_mg_empty stable_keep_parent
      stable_nil stable_cons_drop stable_cons_keep n

theorem cleanContent_idem :
    ∀ l : List (Option ADFNode), cleanContent (cleanContent l) = cleanContent l :=
  fun l =>
    cleanContent.induct
      (fun n => ∀ n', cleanNode n = some n' → cleanNode (some n') = some n')
      (fun l => cleanContent (cleanContent l) = cleanContent l)
      stable_none stable_unsup_leaf stable_mg_leaf stable_keep_leaf
      stable_unsup_parent stable_mg_empty stable_keep_parent
      stable_nil stable_cons_drop stable_cons_keep l

theorem pure_none :
    ∀ n', cleanNode none = some n' → nodeNoUnsupported n' = true := by
  intro n' h
  simp only [cleanNode] at h
  exact absurd h (by simp)

theorem pure_unsup_leaf :
    ∀ (t a : String), unsupported.contains t = true →
      ∀ n', cleanNode (some (ADFNode.mk t none a)) = some n' →
        nodeNoUnsupported n' = true := by
  intro t a ht n' h
  simp only [cleanNode] at h
  rw [if_pos ht] at h
  exact absurd h (by simp)

theorem pure_mg_leaf :
    ∀ (t a : String), ¬unsupported.contains t = true → (t == "mediaGroup") = true →
      ∀ n', cleanNode (some (ADFNode.mk t none a)) = some n' →
        nodeNoUnsupported n' = true := by
  intro t a ht hmg n' h
  simp only [cleanNode] at h
  rw [if_neg ht, if_pos hmg] at h
  exact absurd h (by simp)

theorem pure_keep_leaf :
    ∀ (t a : String), ¬unsupported.contains t = true → ¬(t == "mediaGroup") = true →
      ∀ n', cleanNode (some (ADFNode.mk t none a)) = some n' →
        nodeNoUnsupported n' = true := by
  intro t a ht hmg n' h
  simp only [cleanNode] at h
  rw [if_neg ht, if_neg hmg] at h
  injection h with h2
  subst h2
  simp only [nodeNoUnsupported]
  simpa using ht

theorem pure_unsup_parent :
    ∀ (t : String) (l : List (Option ADFNode)) (a : String),
      unsupported.contains t = true →
      ∀ n', cleanNode (some (ADFNode.mk t (some l) a)) = some n' →
        nodeNoUnsupported n' = true := by
  intro t l a ht n' h
  simp only [cleanNode] at h
  rw [if_pos ht] at h
  exact absurd h (by simp)

theorem pure_mg_empty :
    ∀ (t : String) (l : List (Option ADFNode)) (a : String),
      ¬unsupported.contains t = true →
      (t == "mediaGroup" && (cleanContent l).isEmpty) = true →
      contentNoUnsupported (cleanContent l) = true →
      ∀ n', cleanNode (some (ADFNode.mk t (some l) a)) = some n' →
        nodeNoUnsupported n' = true := by
  intro t l a ht hcond _ n' h
  simp only [cleanNode] at h
  rw [if_neg ht, if_pos hcond] at h
  exact absurd h (by simp)

theorem pure_keep_parent :
    ∀ (t : String) (l : List (Option ADFNode)) (a : String),
      ¬unsupported.contains t = true →
      ¬(t == "mediaGroup" && (cleanContent l).isEmpty) = true →
      contentNoUnsupported (cleanContent l) = true →
      ∀ n', cleanNode (some (ADFNode.mk t (some l) a)) = some n' →
        nodeNoUnsupported n' = true := by
  intro t l a ht hcond ih n' h
  simp only [cleanNode] at h
  rw [if_neg ht, if_neg hcond] at h
  injection h with h2
  subst h2
  simp only [nodeNoUnsupported, ih, Bool.and_true]
  simpa using ht

theorem pure_nil :
    contentNoUnsupported (cleanContent ([] : List (Option ADFNode))) = true := by
  simp only [cleanContent, contentNoUnsupported]

theorem pure_cons_drop :
    ∀ (n : Option ADFNode) (rest : List (Option ADFNode)),
      cleanNode n = none →
      (∀ n', cleanNode n = some n' → nodeNoUnsupported n' = true) →
      contentNoUnsupported (cleanContent rest) = true →
      contentNoUnsupported (cleanContent (n :: rest)) = true := by
  intro n rest h _ ih2
  simp only [cleanContent, h]
  exact ih2

theorem pure_cons_keep :
    ∀ (n : Option ADFNode) (rest : List (Option ADFNode)) (n' : ADFNode),
      cleanNode n = some n' →
      (∀ m, cleanNode n = some m → nodeNoUnsupported m = true) →
      contentNoUnsupported (cleanContent rest) = true →
      contentNoUnsupported (cleanContent (n :: rest)) = true := by
  intro n rest n' h ih1 ih2
  simp only [cleanContent, h, contentNoUnsupported, ih1 n' h, ih2, Bool.and_self]

theorem cleanContent_noUnsupported :
    ∀ l : List (Option ADFNode), contentNoUnsupported (cleanContent l) = true :=
  fun l =>
    cleanContent.induct
      (fun n => ∀ n', cleanNode n = some n' → nodeNoUnsupported n' = true)
      (fun l => contentNoUnsupported (cleanContent l) = true)
      pure_none pure_unsup_leaf pure_mg_leaf pure_keep_leaf
      pure_unsup_parent pure_mg_empty pure_keep_parent
      pure_nil pure_cons_drop pure_cons_keep l

/-- C6: for every input — absent, malformed, or a well-formed document —
`sanitizeADF` is idempotent: feeding an already-sanitized document back in
returns it unchanged. The sanitized output always carries type `"doc"`, so it
passes the root guard again and the second pass only re-cleans an
already-clean child array. -/
theorem sanitizeADF_idempotent (x : Option ADF) :
    sanitizeADF (some (sanitizeADF x)) = sanitizeADF x := by
  cases x with
  | none =>
      simp only [sanitizeADF]
      rw [if_neg (by simp)]
      simp only [cleanContent, Option.getD_some]
  | some adf =>
      by_cases h : adf.type = "doc"
      · simp only [sanitizeADF]
        rw [if_neg (by simp [h]), if_neg (by simp [h])]
        simp only [Option.getD_some, cleanContent_idem]
      · simp only [sanitizeADF]
        rw [if_pos h]
        simp only [sanitizeADF]
        rw [if_neg (by simp)]
        simp only [cleanContent, Option.getD_some]

/-! ### C1: media handling of the sanitizer -/

/-- A document whose only child is a media reference node. -/
def mediaDocExample : ADF :=
  { type := "doc", version := 1,
    content := some [some (ADFNode.mk "media" none "id: img-1")], attrs := "" }

/-- C1 counterexample: the claim says no media-reference node present in the
input is removed, but `"media"` is in the sanitizer's deny-set: a document
whose only child is a media node sanitizes to an empty child array. -/
theorem sanitize_media_removed_counterexample :
    mediaDocExample.content = some [some (ADFNode.mk "media" none "id: img-1")]
    ∧ (sanitizeADF (some mediaDocExample)).content = some [] := by
  constructor
  · rfl
  · simp [sanitizeADF, mediaDocExample, cleanContent, cleanNode, unsupported]

/-- C1 (amended): `sanitizeADF` removes media-reference nodes rather than
preserving them — `media`, `mediaSingle` and `mediaInline` are in the
deny-set, so no node of a deny-set type survives anywhere in the output; and
a `mediaGroup` node is deleted exactly when its cleaned child array is
missing or empty, and otherwise kept verbatim apart from its cleaned
children. -/
theorem sanitize_denyset_and_mediaGroup_pruning :
    ("media" ∈ unsupported ∧ "mediaSingle" ∈ unsupported ∧ "mediaInline" ∈ unsupported)
    ∧ (∀ x : Option ADF, contentNoUnsupported ((sanitizeADF x).content.getD []) = true)
    ∧ (∀ (c : Option (List (Option ADFNode))) (a : String),
        cleanNode (some (ADFNode.mk "mediaGroup" c a)) =
          if ((c.map cleanContent).getD []).isEmpty then none
          else some (ADFNode.mk "mediaGroup" (c.map cleanContent) a)) := by
  refine ⟨by simp [unsupported], ?_, ?_⟩
  · intro x
    cases x with
    | none => simp [sanitizeADF, contentNoUnsupported]
    | some adf =>
        by_cases h : adf.type = "doc"
        · simp only [sanitizeADF]
          rw [if_neg (by simp [h])]
          simpa using cleanContent_noUnsupported (adf.content.getD [])
        · simp only [sanitizeADF]
          rw [if_pos h]
          simp [contentNoUnsupported]
  · intro c a
    cases c with
    | none => simp [cleanNode, unsupported]
    | some l =>
        simp only [cleanNode, Option.map_some, Option.getD_some]
        rw [if_neg (by simp [unsupported])]
        by_cases hl : (cleanContent l).isEmpty
        · rw [if_pos (by simp [hl])]
          simp [hl]
        · rw [if_neg (by simp [hl])]
          simp [hl]

/-! ### C9 / C4 / C10: version fields and the per-target loop -/

/-- C9: for every target whose affects-versions list is present, the created
field set always contains `fixVersions` mapped from that list, and contains
`versions` (same mapping) exactly when the source issue-type id is not the
literal string `"10011"`; when it is `"10011"`, `versions` is omitted. -/
theorem buildFields_fixVersions_and_versions
    (target : Target) (src : SrcIssue) (vs : List String)
    (h : target.affectsVersions = some vs) :
    ∃ f, buildFields target src = Except.ok f
      ∧ f.fixVersions = vs.map VersionRef.mk
      ∧ (src.issuetypeId ≠ "10011" → f.versions = some (vs.map VersionRef.mk))
      ∧ (src.issuetypeId = "10011" → f.versions = none) := by
  unfold buildFields
  rw [h]
  refine ⟨_, rfl, rfl, ?_, ?_⟩
  · intro hne
    simp [hne]
  · intro heq
    simp [heq]

/-- A source issue whose issue type is the special-cased `"10011"`. -/
def srcSpecial : SrcIssue :=
  { key := "SRC-1", summary := "Fix bug", description := none,
    issuetypeId := "10011", assigneeId := none, attachment := none }

/-- A plain target with a one-element affects-versions list. -/
def targetPlain : Target :=
  { project := "P1", stripBrackets := false, client := ClientVal.absent,
    labels := none, components := none, affectsVersions := some ["2.0"],
    linkType := none }

/-- The field set `run` builds for `targetPlain` over `srcSpecial`. -/
def fSpecial : Fields :=
  { summary := transformSummaryForTarget (some targetPlain) "Fix bug",
    description := sanitizeADF srcSpecial.description,
    issuetypeId := "10011", assigneeId := none, project := "P1",
    fixVersions := [VersionRef.mk "2.0"], versions := none,
    labels := none, components := none }

/-- Witness for C9 at a concrete target and a `"10011"` source issue. -/
theorem buildFields_fixVersions_and_versions_witness :
    buildFields targetPlain srcSpecial = Except.ok fSpecial
    ∧ fSpecial.fixVersions = [VersionRef.mk "2.0"]
    ∧ fSpecial.versions = none := by
  obtain ⟨f, hf, hfix, _, hv⟩ :=
    buildFields_fixVersions_and_versions targetPlain srcSpecial ["2.0"] rfl
  have hfs : buildFields targetPlain srcSpecial = Except.ok fSpecial := rfl
  rw [hfs] at hf
  injection hf with hf
  subst hf
  exact ⟨hfs, by simpa using hfix, hv rfl⟩

/-- A source issue with an ordinary issue type. -/
def srcPlain : SrcIssue :=
  { key := "SRC-1", summary := "Fix bug", description := none,
    issuetypeId := "10002", assigneeId := none, attachment := none }

/-- The field set `run` builds for `targetPlain` over `srcPlain`. -/
def fPlain : Fields :=
  { summary := transformSummaryForTarget (some targetPlain) "Fix bug",
    description := sanitizeADF srcPlain.description,
    issuetypeId := "10002", assigneeId := none, project := "P1",
    fixVersions := [VersionRef.mk "2.0"], versions := some [VersionRef.mk "2.0"],
    labels := none, components := none }

/-- C4 counterexample: with a target declaring the non-empty affects-versions
list `["2.0"]` (and any destination schema — the code consults none), the
built field set contains a non-empty `fixVersions`, contradicting the claim
that `fixVersions` is never set when `versions` is preferred. -/
theorem fixVersions_always_set_counterexample :
    buildFields targetPlain srcPlain = Except.ok fPlain
    ∧ fPlain.fixVersions = [VersionRef.mk "2.0"]
    ∧ fPlain.fixVersions ≠ []
    ∧ fPlain.versions = some [VersionRef.mk "2.0"] :=
  ⟨rfl, rfl, by simp [fPlain], rfl⟩

/-- C4 (amended): the resolver never probes a destination schema. For every
target with a non-empty affects-versions list the field set always sets
`fixVersions` (so it is never the case that only `versions` is set), and sets
`versions` as well exactly when the source issue-type id differs from
`"10011"`. -/
theorem version_fields_no_schema_probe
    (target : Target) (src : SrcIssue) (vs : List String)
    (h : target.affectsVersions = some vs) (hvs : vs ≠ []) :
    ∃ f, buildFields target src = Except.ok f
      ∧ f.fixVersions = vs.map VersionRef.mk
      ∧ f.fixVersions ≠ []
      ∧ f.versions =
          (if src.issuetypeId ≠ "10011" then some (vs.map VersionRef.mk) else none) := by
  unfold buildFields
  rw [h]
  exact ⟨_, rfl, rfl, by simpa using hvs, rfl⟩

/-- Witness for C4 (amended) at a concrete target and source. -/
theorem version_fields_no_schema_probe_witness :
    buildFields targetPlain srcPlain = Except.ok fPlain
    ∧ fPlain.fixVersions ≠ []
    ∧ fPlain.versions =
        (if srcPlain.issuetypeId ≠ "10011" then some [VersionRef.mk "2.0"] else none) := by
  obtain ⟨f, hf, hfix, hne, hv⟩ :=
    version_fields_no_schema_probe targetPlain srcPlain ["2.0"] rfl (by simp)
  have hfs : buildFields targetPlain srcPlain = Except.ok fPlain := rfl
  rw [hfs] at hf
  injection hf with hf
  subst hf
  exact ⟨hfs, hne, by simpa using hv⟩

/-- C10: when a target's affects-versions attribute is absent, the
field-object construction throws outside the per-target guard: the abort flag
of the run is set, and the per-target trace list stops with the targets
before the offending one — the offending target and every later one
contribute nothing (they are never attempted). -/
theorem run_aborts_on_missing_affectsVersions
    (env : Env) (src : SrcIssue) (pre post : List Target) (t : Target)
    (hpre : ∀ t' ∈ pre, t'.affectsVersions ≠ none)
    (ht : t.affectsVersions = none) :
    (runTargets env src (pre ++ t :: post)).2 = true
    ∧ (runTargets env src (pre ++ t :: post)).1.length = pre.length := by
  induction pre with
  | nil =>
      simp [runTargets, buildFields, ht]
  | cons p ps ih =>
      obtain ⟨vs, hvs⟩ : ∃ vs, p.affectsVersions = some vs := by
        cases hp : p.affectsVersions with
        | none => exact absurd hp (hpre p (by simp))
        | some vs => exact ⟨vs, rfl⟩
      have ih' := ih (fun t' ht' => hpre t' (List.mem_cons_of_mem _ ht'))
      simp only [List.cons_append, runTargets, buildFields, hvs]
      simp [ih'.1, ih'.2]

/-- A target whose affects-versions attribute is absent. -/
def targetNoVersions : Target :=
  { project := "P9", stripBrackets := false, client := ClientVal.absent,
    labels := none, components := none, affectsVersions := none,
    linkType := none }

/-- A remote side on which every creation and every download succeeds. -/
def envAllOk : Env :=
  { createResult := fun _ => some "NEW-1", downloadResult := fun _ => some "bytes" }

/-- Witness for C10: with a good target before and after the bad one, the run
aborts and only the first target was attempted. -/
theorem run_aborts_on_missing_affectsVersions_witness :
    (runTargets envAllOk srcPlain [targetPlain, targetNoVersions, targetPlain]).2 = true
    ∧ (runTargets envAllOk srcPlain [targetPlain, targetNoVersions, targetPlain]).1.length = 1 := by
  have h := run_aborts_on_missing_affectsVersions envAllOk srcPlain
    [targetPlain] [targetPlain] targetNoVersions
    (by intro t' ht'; simp at ht'; subst ht'; simp [targetPlain]) rfl
  simpa using h

/-! ### C2 / C5: trace shape of one target's iteration -/

/-- Recognizer for the issue-update endpoint, which the script never calls. -/
def isUpdateCall : ApiCall → Bool
  | ApiCall.updateIssue _ _ => true
  | _ => false

/-- Every call the attachment loop makes is a download or an upload. -/
theorem cloneAttachmentsGo_calls (env : Env) (key : String) :
    ∀ atts : List Attachment, ∀ c ∈ (cloneAttachmentsGo env key atts).1,
      (∃ u, c = ApiCall.download u) ∨ ∃ k n b, c = ApiCall.upload k n b := by
  intro atts
  induction atts with
  | nil => simp [cloneAttachmentsGo]
  | cons att rest ih =>
      intro c hc
      cases hd : env.downloadResult att.content with
      | none =>
          simp only [cloneAttachmentsGo, hd] at hc
          simp only [List.mem_singleton] at hc
          exact Or.inl ⟨_, hc⟩
      | some data =>
          simp only [cloneAttachmentsGo, hd, List.mem_cons] at hc
          rcases hc with rfl | rfl | hc
          · exact Or.inl ⟨_, rfl⟩
          · exact Or.inr ⟨_, _, _, rfl⟩
          · exact ih c hc

/-- Every call one target's guarded iteration makes is the creation attempt
itself, a download, an upload, or a `"Blocks"` link from the source key. -/
theorem runTarget_calls (env : Env) (skey : String) (f : Fields) (atts : List Attachment) :
    ∀ c ∈ runTarget env skey f atts,
      c = ApiCall.createIssue f
      ∨ ((∃ u, c = ApiCall.download u) ∨ ∃ k n b, c = ApiCall.upload k n b)
      ∨ ∃ nk, c = ApiCall.createLink "Blocks" skey nk := by
  intro c hc
  cases hcr : env.createResult f with
  | none =>
      simp only [runTarget, hcr, List.mem_singleton] at hc
      exact Or.inl hc
  | some newKey =>
      simp only [runTarget, hcr, List.mem_cons, List.mem_append] at hc
      rcases hc with rfl | hc | hc
      · exact Or.inl rfl
      · exact Or.inr (Or.inl (cloneAttachmentsGo_calls env newKey atts c hc))
      · by_cases hthrown : (cloneAttachmentsGo env newKey atts).2
        · rw [if_pos hthrown] at hc
          exact absurd hc (by simp)
        · rw [if_neg hthrown] at hc
          simp only [List.mem_singleton] at hc
          exact Or.inr (Or.inr ⟨_, hc⟩)

/-- A successfully built field set carries the sanitized source description. -/
theorem buildFields_ok_description (t : Target) (src : SrcIssue) (f : Fields)
    (h : buildFields t src = Except.ok f) :
    f.description = sanitizeADF src.description := by
  unfold buildFields at h
  cases hv : t.affectsVersions with
  | none => rw [hv] at h; exact absurd h (by simp)
  | some vs =>
      rw [hv] at h
      injection h with h2
      subst h2
      rfl

/-- C2 (amended): every issue creation the run performs carries the sanitized
rich-text body in its field set, and the run never calls the issue-update
endpoint — there is no separate body-update step. -/
theorem create_carries_description_no_update (env : Env) (src : SrcIssue)
    (ts : List Target) :
    ∀ tr ∈ (runTargets env src ts).1, ∀ c ∈ tr,
      (∀ f, c = ApiCall.createIssue f → f.description = sanitizeADF src.description)
      ∧ isUpdateCall c = false := by
  induction ts with
  | nil => simp [runTargets]
  | cons target rest ih =>
      intro tr htr c hc
      cases hbf : buildFields target src with
      | error e =>
          simp only [runTargets, hbf] at htr
          exact absurd htr (by simp)
      | ok f =>
          simp only [runTargets, hbf, List.mem_cons] at htr
          rcases htr with rfl | htr
          · rcases runTarget_calls env src.key f (src.attachment.getD []) c hc with
              rfl | ⟨⟨u, rfl⟩ | ⟨k, n, b, rfl⟩⟩ | ⟨nk, rfl⟩
            · refine ⟨?_, rfl⟩
              intro f' hf'
              injection hf' with h2
              subst h2
              exact buildFields_ok_description target src f hbf
            · exact ⟨fun f' hf' => absurd hf' (by simp), rfl⟩
            · exact ⟨fun f' hf' => absurd hf' (by simp), rfl⟩
            · exact ⟨fun f' hf' => absurd hf' (by simp), rfl⟩
          · exact ih tr htr c hc

/-- C5 (amended): every cross-link the run creates uses the hard-coded
`"Blocks"` relationship name with the source issue as the inward end,
regardless of any relationship name the target configuration declares. -/
theorem link_always_Blocks (env : Env) (src : SrcIssue) (ts : List Target) :
    ∀ tr ∈ (runTargets env src ts).1, ∀ c ∈ tr, ∀ n ik ow,
      c = ApiCall.createLink n ik ow → n = "Blocks" ∧ ik = src.key := by
  induction ts with
  | nil => simp [runTargets]
  | cons target rest ih =>
      intro tr htr c hc n ik ow hl
      cases hbf : buildFields target src with
      | error e =>
          simp only [runTargets, hbf] at htr
          exact absurd htr (by simp)
      | ok f =>
          simp only [runTargets, hbf, List.mem_cons] at htr
          rcases htr with rfl | htr
          · rcases runTarget_calls env src.key f (src.attachment.getD []) c hc with
              rfl | ⟨⟨u, rfl⟩ | ⟨k, m, b, rfl⟩⟩ | ⟨nk, rfl⟩
            · exact absurd hl (by simp)
            · exact absurd hl (by simp)
            · exact absurd hl (by simp)
            · injection hl with h1 h2 h3
              exact ⟨h1.symm, h2.symm⟩
          · exact ih tr htr c hc n ik ow hl

/-- A paragraph node used as a document body. -/
def paraNode : ADFNode := ADFNode.mk "paragraph" (some []) "text: hello"

/-- A source issue whose description is a one-paragraph document. -/
def srcWithBody : SrcIssue :=
  { key := "SRC-1", summary := "Fix bug",
    description := some { type := "doc", version := 1, content := some [some paraNode], attrs := "" },
    issuetypeId := "10002", assigneeId := none, attachment := none }

/-- The field set `run` builds for `targetPlain` over `srcWithBody`. -/
def fBody : Fields :=
  { summary := transformSummaryForTarget (some targetPlain) "Fix bug",
    description := sanitizeADF srcWithBody.description,
    issuetypeId := "10002", assigneeId := none, project := "P1",
    fixVersions := [VersionRef.mk "2.0"], versions := some [VersionRef.mk "2.0"],
    labels := none, components := none }

/-- C2 counterexample: the claim says the issue is created with a field set
excluding the rich-text body and then separately updated; but the single
creation call carries the (non-empty) sanitized description, and the trace
contains no issue-update call at all. -/
theorem create_includes_description_counterexample :
    (runTargets envAllOk srcWithBody [targetPlain]).1 =
      [[ApiCall.createIssue fBody, ApiCall.createLink "Blocks" "SRC-1" "NEW-1"]]
    ∧ fBody.description = sanitizeADF srcWithBody.description
    ∧ fBody.description.content = some [some paraNode]
    ∧ ([[ApiCall.createIssue fBody, ApiCall.createLink "Blocks" "SRC-1" "NEW-1"]].all
        (fun tr => tr.all (fun c => !isUpdateCall c))) = true := by
  refine ⟨rfl, rfl, ?_, by simp [isUpdateCall]⟩
  simp [fBody, sanitizeADF, srcWithBody, cleanContent, cleanNode, unsupported, paraNode]

/-- Witness for C2 (amended) at a concrete run: the creation call in the
trace carries the sanitized body and is not an update call. -/
theorem create_carries_description_no_update_witness :
    fBody.description = sanitizeADF srcWithBody.description
    ∧ isUpdateCall (ApiCall.createIssue fBody) = false := by
  have htr : (runTargets envAllOk srcWithBody [targetPlain]).1 =
      [[ApiCall.createIssue fBody, ApiCall.createLink "Blocks" "SRC-1" "NEW-1"]] := rfl
  have h := create_carries_description_no_update envAllOk srcWithBody [targetPlain]
    [ApiCall.createIssue fBody, ApiCall.createLink "Blocks" "SRC-1" "NEW-1"]
    (htr ▸ List.mem_singleton.mpr rfl)
    (ApiCall.createIssue fBody) (List.mem_cons_self _ _)
  exact ⟨h.1 fBody rfl, h.2⟩

/-- A target that explicitly configures a cross-link relationship name. -/
def targetLinked : Target :=
  { project := "P4", stripBrackets := false, client := ClientVal.absent,
    labels := none, components := none, affectsVersions := some ["2.0"],
    linkType := some "Duplicate" }

/-- The field set `run` builds for `targetLinked` over `srcPlain`. -/
def fLinked : Fields :=
  { summary := transformSummaryForTarget (some targetLinked) "Fix bug",
    description := sanitizeADF srcPlain.description,
    issuetypeId := "10002", assigneeId := none, project := "P4",
    fixVersions := [VersionRef.mk "2.0"], versions := some [VersionRef.mk "2.0"],
    labels := none, components := none }

/-- C5 counterexample: the target configures a `"Duplicate"` relationship,
yet the created link uses `"Blocks"` — which is also not the claimed
`"clone"` default. -/
theorem link_hardcoded_Blocks_counterexample :
    (runTargets envAllOk srcPlain [targetLinked]).1 =
      [[ApiCall.createIssue fLinked, ApiCall.createLink "Blocks" "SRC-1" "NEW-1"]]
    ∧ targetLinked.linkType = some "Duplicate"
    ∧ ("Blocks" : String) ≠ "Duplicate"
    ∧ ("Blocks" : String) ≠ "clone" :=
  ⟨rfl, rfl, by decide, by decide⟩

/-- Witness for C5 (amended) at a concrete run containing a link call. -/
theorem link_always_Blocks_witness :
    ("Blocks" : String) = "Blocks" ∧ ("SRC-1" : String) = srcPlain.key := by
  have htr : (runTargets envAllOk srcPlain [targetLinked]).1 =
      [[ApiCall.createIssue fLinked, ApiCall.createLink "Blocks" "SRC-1" "NEW-1"]] := rfl
  exact link_always_Blocks envAllOk srcPlain [targetLinked]
    [ApiCall.createIssue fLinked, ApiCall.createLink "Blocks" "SRC-1" "NEW-1"]
    (htr ▸ List.mem_singleton.mpr rfl)
    (ApiCall.createLink "Blocks" "SRC-1" "NEW-1")
    (by simp) "Blocks" "SRC-1" "NEW-1" rfl

/-! ### C3 / C7: the attachment loop -/

/-- An attachment with an image-extension filename. -/
def attPhoto : Attachment := { filename := "photo.png", content := "u-photo" }

/-- An attachment with an unsupported-for-direct-upload extension. -/
def attLog : Attachment := { filename := "error.log", content := "u-log" }

/-- C3 counterexample: a `photo.png` attachment is both downloaded and
uploaded (raw, under its own name) — no image-extension skip exists anywhere
in the loop. -/
theorem image_attachment_not_skipped_counterexample :
    cloneAttachmentsGo envAllOk "NEW-1" [attPhoto] =
      ([ApiCall.download "u-photo", ApiCall.upload "NEW-1" "photo.png" (Buf.bytes "bytes")],
       false) := rfl

/-- C3 (amended): no extension is skipped. Every attachment whose download
succeeds — image extensions included — is downloaded and then uploaded, under
`<filename>.zip` with zipped content when the lower-cased filename ends in an
unsupported extension and raw under its own name otherwise. -/
theorem every_attachment_downloaded_uploaded (env : Env) (key : String) :
    ∀ atts : List Attachment,
      (∀ a ∈ atts, (env.downloadResult a.content).isSome = true) →
      ∀ a ∈ atts,
        ApiCall.download a.content ∈ (cloneAttachmentsGo env key atts).1
        ∧ ∀ d, env.downloadResult a.content = some d →
            ApiCall.upload key
              (if isUnsupportedExt a.filename then a.filename ++ ".zip" else a.filename)
              (if isUnsupportedExt a.filename then Buf.zip a.filename d else Buf.bytes d)
              ∈ (cloneAttachmentsGo env key atts).1 := by
  intro atts
  induction atts with
  | nil => simp
  | cons att rest ih =>
      intro hdl a ha
      obtain ⟨d0, hd0⟩ := Option.isSome_iff_exists.mp (hdl att (List.mem_cons_self _ _))
      simp only [cloneAttachmentsGo, hd0]
      rcases List.mem_cons.mp ha with rfl | ha
      · refine ⟨List.mem_cons_self _ _, ?_⟩
        intro d hd
        rw [hd0] at hd
        injection hd with hd
        subst hd
        exact List.mem_cons_of_mem _ (List.mem_cons_self _ _)
      · have ihh := ih (fun b hb => hdl b (List.mem_cons_of_mem _ hb)) a ha
        exact ⟨List.mem_cons_of_mem _ (List.mem_cons_of_mem _ ihh.1),
               fun d hd => List.mem_cons_of_mem _ (List.mem_cons_of_mem _ (ihh.2 d hd))⟩

/-- Witness for C3 (amended): with one image attachment and one log
attachment, both are downloaded, and the log file's upload goes out as
`error.log.zip` with zipped content. -/
theorem every_attachment_downloaded_uploaded_witness :
    ApiCall.download "u-photo" ∈ (cloneAttachmentsGo envAllOk "NEW-1" [attPhoto, attLog]).1
    ∧ ApiCall.upload "NEW-1" "photo.png" (Buf.bytes "bytes")
        ∈ (cloneAttachmentsGo envAllOk "NEW-1" [attPhoto, attLog]).1
    ∧ ApiCall.upload "NEW-1" "error.log.zip" (Buf.zip "error.log" "bytes")
        ∈ (cloneAttachmentsGo envAllOk "NEW-1" [attPhoto, attLog]).1 := by
  have hphoto := every_attachment_downloaded_uploaded envAllOk "NEW-1" [attPhoto, attLog]
    (by intro a _; rfl) attPhoto (by simp)
  have hlog := every_attachment_downloaded_uploaded envAllOk "NEW-1" [attPhoto, attLog]
    (by intro a _; rfl) attLog (by simp)
  have hePhoto : isUnsupportedExt attPhoto.filename = false := by decide
  have heLog : isUnsupportedExt attLog.filename = true := by decide
  have h2 := hphoto.2 "bytes" rfl
  have h3 := hlog.2 "bytes" rfl
  rw [hePhoto] at h2
  rw [heLog] at h3
  simp only [if_neg Bool.false_ne_true, if_pos rfl] at h2 h3
  exact ⟨hphoto.1, h2, h3⟩

/-- First of two attachments; its download will be made to fail. -/
def attFailing : Attachment := { filename := "a.txt", content := "u1" }

/-- Second attachment; its download would succeed. -/
def attFine : Attachment := { filename := "b.txt", content := "u2" }

/-- A remote side on which only the download of `"u1"` fails. -/
def envDlFail : Env :=
  { createResult := fun _ => some "NEW-1",
    downloadResult := fun u => if u = "u1" then none else some "data" }

/-- C7 counterexample: the first attachment's download failure ends the loop:
the second attachment — whose download would succeed — is never downloaded or
uploaded, contradicting the claim that a failure at any step of one
attachment does not stop the others. -/
theorem download_failure_stops_remaining_counterexample :
    cloneAttachmentsGo envDlFail "NEW-1" [attFailing, attFine] =
      ([ApiCall.download "u1"], true)
    ∧ envDlFail.downloadResult attFine.content = some "data" := ⟨rfl, rfl⟩

/-- C7 (amended): only the upload sits inside a per-attachment guard (its
outcome is logged and never consulted, so it cannot stop the loop); a
download failure, however, propagates: the loop ends with the failing
download, the remaining attachments are never touched, and the throw reaches
the per-target guard — the run itself continues with the next target. -/
theorem attachment_failure_isolation :
    (∀ (env : Env) (key : String) (atts : List Attachment),
        (∀ a ∈ atts, (env.downloadResult a.content).isSome = true) →
        (cloneAttachmentsGo env key atts).2 = false)
    ∧ (∀ (env : Env) (key : String) (pre : List Attachment) (a : Attachment)
          (post : List Attachment),
        (∀ b ∈ pre, (env.downloadResult b.content).isSome = true) →
        env.downloadResult a.content = none →
        cloneAttachmentsGo env key (pre ++ a :: post) =
          ((cloneAttachmentsGo env key pre).1 ++ [ApiCall.download a.content], true))
    ∧ (∀ (env : Env) (src : SrcIssue) (target : Target) (rest : List Target) (f : Fields),
        buildFields target src = Except.ok f →
        (runTargets env src (target :: rest)).1 =
          runTarget env src.key f (src.attachment.getD []) :: (runTargets env src rest).1
        ∧ (runTargets env src (target :: rest)).2 = (runTargets env src rest).2) := by
  refine ⟨?_, ?_, ?_⟩
  · intro env key atts
    induction atts with
    | nil => intro _; rfl
    | cons att rest ih =>
        intro hdl
        obtain ⟨d0, hd0⟩ := Option.isSome_iff_exists.mp (hdl att (List.mem_cons_self _ _))
        simp only [cloneAttachmentsGo, hd0]
        exact ih (fun b hb => hdl b (List.mem_cons_of_mem _ hb))
  · intro env key pre a post
    induction pre with
    | nil =>
        intro _ hfail
        simp [cloneAttachmentsGo, hfail]
    | cons b bs ih =>
        intro hpre hfail
        obtain ⟨d0, hd0⟩ := Option.isSome_iff_exists.mp (hpre b (List.mem_cons_self _ _))
        have ih' := ih (fun x hx => hpre x (List.mem_cons_of_mem _ hx)) hfail
        simp only [List.cons_append, cloneAttachmentsGo, hd0, List.append_eq, ih']
  · intro env src target rest f hbf
    constructor <;> simp [runTargets, hbf]

/-- Witness for C7 (amended) at concrete inputs: with only `attFine` the loop
finishes without throwing; with `attFine` before `attFailing`, the loop stops
right after the failing download. -/
theorem attachment_failure_isolation_witness :
    (cloneAttachmentsGo envDlFail "NEW-1" [attFine]).2 = false
    ∧ cloneAttachmentsGo envDlFail "NEW-1" [attFine, attFailing, attFine] =
        ((cloneAttachmentsGo envDlFail "NEW-1" [attFine]).1 ++ [ApiCall.download "u1"], true) := by
  refine ⟨?_, ?_⟩
  · exact attachment_failure_isolation.1 envDlFail "NEW-1" [attFine]
      (by intro a ha; simp only [List.mem_singleton] at ha; subst ha; decide)
  · exact attachment_failure_isolation.2.1 envDlFail "NEW-1" [attFine] attFailing [attFine]
      (by intro b hb; simp only [List.mem_singleton] at hb; subst hb; decide) rfl

/-! ### C8: the summary transformer contract -/

/-- The anchored pattern `\s*\[[^\]]*\]` matches exactly a leading whitespace
run, an opening bracket, bracket-free inner text, and the closing bracket,
leaving the rest. -/
theorem matchBracket_decomp (ws mid rest : List Char)
    (hws : ∀ c ∈ ws, c.isWhitespace = true) (hmid : ']' ∉ mid) :
    matchBracket (ws ++ '[' :: (mid ++ ']' :: rest)) = some rest := by
  have h2 : (mid ++ ']' :: rest).dropWhile (fun c => c ≠ ']') = ']' :: rest := by
    induction mid with
    | nil =>
        rw [List.nil_append, List.dropWhile_cons_of_neg (by simp)]
    | cons m ms ih =>
        have hm : m ≠ ']' := fun hmm => hmid (hmm ▸ List.mem_cons_self _ _)
        rw [List.cons_append, List.dropWhile_cons_of_pos (by simpa using hm)]
        exact ih (fun hx => hmid (List.mem_cons_of_mem _ hx))
  have h1 : (ws ++ '[' :: (mid ++ ']' :: rest)).dropWhile Char.isWhitespace =
      '[' :: (mid ++ ']' :: rest) := by
    induction ws with
    | nil =>
        rw [List.nil_append, List.dropWhile_cons_of_neg (by decide)]
    | cons c cs ih =>
        rw [List.cons_append, List.dropWhile_cons_of_pos (hws c (List.mem_cons_self _ _))]
        exact ih (fun x hx => hws x (List.mem_cons_of_mem _ hx))
  rw [matchBracket, h1]
  simp only [matchBracketAfterWs]
  rw [if_pos trivial, h2]
  simp only [closeBracketSplit]
  rw [if_pos trivial]

/-- C8: the full contract of `transformSummaryForTarget`. An absent target or
an absent/empty title returns the title unchanged; under the strip-all policy
the result is the title with every bracket group (and the whitespace run
glued to its left) removed, trimmed; otherwise the title first loses only a
leading bracket group — characterized below: exactly a leading whitespace
run, `[`, bracket-free text, `]`, and the following whitespace run are
removed, and a title with no such leading group is left intact — and is then
prefixed with `"[<tag>] "` and trimmed exactly when the target declares a
client tag (a non-empty string, or the first element of a list), and returned
unprefixed otherwise. -/
theorem transformSummaryForTarget_contract (t : Option Target) (s : String) :
    ((t = none ∨ s = "") → transformSummaryForTarget t s = s)
    ∧ (∀ tg, t = some tg → s ≠ "" → tg.stripBrackets = true →
        transformSummaryForTarget t s = jsTrim (stripAllBrackets s))
    ∧ (∀ tg, t = some tg → s ≠ "" → tg.stripBrackets = false →
        (∀ c, clientValOf tg.client = some c →
          transformSummaryForTarget t s =
            jsTrim ("[" ++ c ++ "] " ++ (stripLeadingBracketChars s.data).asString))
        ∧ (clientValOf tg.client = none →
          transformSummaryForTarget t s = (stripLeadingBracketChars s.data).asString))
    ∧ (∀ ws mid rest, s.data = ws ++ '[' :: (mid ++ ']' :: rest) →
        (∀ ch ∈ ws, ch.isWhitespace = true) → ']' ∉ mid →
        stripLeadingBracketChars s.data = rest.dropWhile Char.isWhitespace)
    ∧ (matchBracket s.data = none → stripLeadingBracketChars s.data = s.data) := by
  refine ⟨?_, ?_, ?_, ?_, ?_⟩
  · rintro (rfl | rfl)
    · rfl
    · cases t with
      | none => rfl
      | some tg => simp [transformSummaryForTarget]
  · rintro tg rfl hs hstrip
    simp only [transformSummaryForTarget]
    rw [if_neg hs, if_pos hstrip]
  · rintro tg rfl hs hstrip
    constructor
    · intro c hc
      simp only [transformSummaryForTarget]
      rw [if_neg hs, if_neg (by simp [hstrip]), hc]
    · intro hc
      simp only [transformSummaryForTarget]
      rw [if_neg hs, if_neg (by simp [hstrip]), hc]
  · intro ws mid rest hdecomp hws hmid
    rw [hdecomp, stripLeadingBracketChars, matchBracket_decomp ws mid rest hws hmid]
  · intro hm
    rw [stripLeadingBracketChars, hm]

/-- A target with the prefix policy and client tag `"Acme"`. -/
def targetAcme : Target :=
  { project := "P5", stripBrackets := false, client := ClientVal.str "Acme",
    labels := none, components := none, affectsVersions := some ["2.0"],
    linkType := none }

/-- Witness for C8 at the spec's example title: the leading `[QA]` group is
replaced by the `[Acme]` prefix. -/
theorem transformSummaryForTarget_contract_witness :
    transformSummaryForTarget (some targetAcme) "[QA] Fix login bug" = "[Acme] Fix login bug" := by
  have h :=
    ((transformSummaryForTarget_contract (some targetAcme) "[QA] Fix login bug").2.2.1
      targetAcme rfl (by decide) rfl).1 "Acme" rfl
  rw [h]
  decide

end JiraClone
